import Mathlib

/-!
# Verification of `get_transcript.py` (davodey/avi-backend)

Shallow embedding of the single source file `get_transcript.py` and of the
parts of CPython's `urllib.parse` library that it calls (`urlparse`,
`ParseResult.hostname`, `parse_qs`), together with proofs of the frozen
claims about the program.

Modelling conventions:
* Strings are processed as `List Char`; the `String`-level entry points
  convert once via `String.data`.
* `urllib.parse` is modelled after current CPython (3.12) semantics:
  `urlsplit` first strips leading WHATWG C0-control-or-space characters,
  removes every tab / CR / LF, recognises an ASCII-letter-led scheme before
  the first `:`, takes the network location between `//` and the first of
  `/ ? #`, then splits the fragment (first `#`) before the query (first
  `?`).  A netloc containing `[` without `]` (or vice versa) raises
  `ValueError("Invalid IPv6 URL")`, modelled as `Except.error`; the
  additional bracketed-host (IPv6 literal) validation of CPython ≥3.11 is
  not modelled — no claim concerns bracketed netlocs.
* `parse_qs` is modelled by the ordered association list of retained
  `(name, value)` pairs: split on `&`, drop pairs without `=` and pairs
  whose raw value is empty (`keep_blank_values=False`), and decode both
  sides with `unquote_plus` (`+` to space, then percent-decoding of byte
  sequences, UTF-8-decoded with U+FFFD replacement à la `errors='replace'`).
  `parse_qs(q)['v'][0]` is then the value of the first retained pair whose
  decoded name is `v`, and raising `KeyError('v')` (whose `str` is `'v'`)
  is modelled as `Except.error "'v'"`.
* The external `YouTubeTranscriptApi.get_transcript` call is an oracle
  `String → Except String (List α)`: `.error e` stands for the call raising
  an exception with textual description `e`.  Transcript segments are
  opaque to the program, hence the type parameter `α`.
* `get_transcript` returns, besides its result record, the list of video
  ids the external service was invoked with, in order, so that claims about
  the number of service calls are statable.
* Lowercasing (`str.lower`) is modelled ASCII-only (`Char.toLower`); this
  agrees with CPython on every hostname comparison the program performs,
  since no non-ASCII character lowercases onto a letter of
  `youtu.be` / `youtube.com`.
-/

deriving instance DecidableEq for Except

namespace AviBackend

/-! ## Character classes used by `urllib.parse` -/

/-- `_UNSAFE_URL_BYTES_TO_REMOVE = ["\t", "\r", "\n"]`: characters removed
from the URL before parsing. -/
def isUnsafeUrlChar (c : Char) : Bool :=
  c == '\t' || c == '\r' || c == '\n'

/-- `_WHATWG_C0_CONTROL_OR_SPACE`: C0 control characters and space,
stripped from the start of the URL. -/
def isC0OrSpace (c : Char) : Bool :=
  c.toNat ≤ 0x20

/-- `scheme_chars = ascii letters + digits + '+-.'`. -/
def isSchemeChar (c : Char) : Bool :=
  c.isAlpha || c.isDigit || c == '+' || c == '-' || c == '.'

/-! ## Generic splitting helpers (`str.split(sep, 1)`, `str.split(sep)`) -/

/-- `s.split(d, 1)` when `d` occurs: `some (before, after)` for the first
occurrence of `d`, `none` when `d` does not occur. -/
def splitOnFirst (d : Char) : List Char → Option (List Char × List Char)
  | [] => none
  | c :: t =>
    if c = d then some ([], t)
    else
      match splitOnFirst d t with
      | some (a, b) => some (c :: a, b)
      | none => none

/-- `s.split(d)`: split on every occurrence of `d`
(`''.split(d) = ['']`). -/
def splitAllOn (d : Char) : List Char → List (List Char)
  | [] => [[]]
  | c :: t =>
    if c = d then [] :: splitAllOn d t
    else
      match splitAllOn d t with
      | [] => [[c]]
      | h :: r => (c :: h) :: r

/-- The part of `l` after the last occurrence of `d`
(`l.rpartition(d)[2]`; all of `l` when `d` is absent). -/
def afterLastChar (d : Char) (l : List Char) : List Char :=
  (l.reverse.takeWhile (fun c => !(c == d))).reverse

/-! ## Percent decoding (`urllib.parse.unquote` / `unquote_plus`) -/

/-- Value of one hex digit (`string.hexdigits`). -/
def hexDigit (c : Char) : Option Nat :=
  if '0' ≤ c ∧ c ≤ '9' then some (c.toNat - 48)
  else if 'a' ≤ c ∧ c ≤ 'f' then some (c.toNat - 87)
  else if 'A' ≤ c ∧ c ≤ 'F' then some (c.toNat - 55)
  else none

/-- A lexical token of a percent-encoded string: a literal character, or a
byte coming from a `%XY` escape. -/
inductive QuoteTok where
  | lit (c : Char)
  | byte (b : Nat)
deriving DecidableEq

/-- Tokenize a percent-encoded string: `%` followed by two hex digits
becomes a byte, everything else stays literal (`unquote` leaves malformed
escapes untouched). -/
def quoteToks : List Char → List QuoteTok
  | [] => []
  | '%' :: a :: b :: rest2 =>
    match hexDigit a, hexDigit b with
    | some ha, some hb => .byte (16 * ha + hb) :: quoteToks rest2
    | _, _ => .lit '%' :: quoteToks (a :: b :: rest2)
  | '%' :: rest => .lit '%' :: quoteToks rest
  | c :: rest => .lit c :: quoteToks rest

/-- U+FFFD, the replacement character used by `errors='replace'`. -/
def replChar : Char := Char.ofNat 0xFFFD

/-- Is `b` a UTF-8 continuation byte? -/
def isContByte (b : Nat) : Bool := 0x80 ≤ b && b ≤ 0xBF

/-- Lower bound for the first continuation byte after lead byte `b`
(tightened for `E0` and `F0` to exclude overlong encodings). -/
def cont1Lo (b : Nat) : Nat :=
  if b = 0xE0 then 0xA0 else if b = 0xF0 then 0x90 else 0x80

/-- Upper bound for the first continuation byte after lead byte `b`
(tightened for `ED` to exclude surrogates and for `F4` to cap at
U+10FFFF). -/
def cont1Hi (b : Nat) : Nat :=
  if b = 0xED then 0x9F else if b = 0xF4 then 0x8F else 0xBF

/-- UTF-8 decoding with U+FFFD replacement, maximal-subpart policy, as
performed by `bytes.decode('utf-8', errors='replace')`.  The `Nat` fuel is
initialised with the length of the byte list; every step consumes at least
one byte and one unit of fuel, so the fuel never runs out. -/
def utf8Go : Nat → List Nat → List Char
  | 0, _ => []
  | _ + 1, [] => []
  | fuel + 1, b :: rest =>
    if b < 0x80 then Char.ofNat b :: utf8Go fuel rest
    else if 0xC2 ≤ b ∧ b ≤ 0xDF then
      match rest with
      | [] => [replChar]
      | c1 :: rest1 =>
        if isContByte c1 then
          Char.ofNat ((b - 0xC0) * 64 + (c1 - 0x80)) :: utf8Go fuel rest1
        else replChar :: utf8Go fuel rest
    else if 0xE0 ≤ b ∧ b ≤ 0xEF then
      match rest with
      | [] => [replChar]
      | c1 :: rest1 =>
        if cont1Lo b ≤ c1 ∧ c1 ≤ cont1Hi b then
          match rest1 with
          | [] => [replChar]
          | c2 :: rest2 =>
            if isContByte c2 then
              Char.ofNat (((b - 0xE0) * 64 + (c1 - 0x80)) * 64 + (c2 - 0x80)) ::
                utf8Go fuel rest2
            else replChar :: utf8Go fuel rest1
        else replChar :: utf8Go fuel rest
    else if 0xF0 ≤ b ∧ b ≤ 0xF4 then
      match rest with
      | [] => [replChar]
      | c1 :: rest1 =>
        if cont1Lo b ≤ c1 ∧ c1 ≤ cont1Hi b then
          match rest1 with
          | [] => [replChar]
          | c2 :: rest2 =>
            if isContByte c2 then
              match rest2 with
              | [] => [replChar]
              | c3 :: rest3 =>
                if isContByte c3 then
                  Char.ofNat ((((b - 0xF0) * 64 + (c1 - 0x80)) * 64 + (c2 - 0x80)) * 64
                      + (c3 - 0x80)) :: utf8Go fuel rest3
                else replChar :: utf8Go fuel rest2
            else replChar :: utf8Go fuel rest1
        else replChar :: utf8Go fuel rest
    else replChar :: utf8Go fuel rest

/-- UTF-8 decoding with replacement of a byte list. -/
def utf8Decode (l : List Nat) : List Char := utf8Go l.length l

/-- Assemble the token stream of a percent-encoded string: maximal runs of
escape bytes are UTF-8-decoded together (with replacement), literal
characters pass through.  `acc` holds the pending byte run. -/
def dequoteToks : List QuoteTok → List Nat → List Char
  | [], acc => utf8Decode acc
  | .byte b :: t, acc => dequoteToks t (acc ++ [b])
  | .lit c :: t, acc => utf8Decode acc ++ c :: dequoteToks t []

/-- `urllib.parse.unquote(s)` for `str` input with the default
`encoding='utf-8', errors='replace'`. -/
def unquote (l : List Char) : List Char :=
  dequoteToks (quoteToks l) []

/-- `urllib.parse.unquote_plus`: `+` becomes space, then `unquote`. -/
def unquotePlus (l : List Char) : List Char :=
  unquote (l.map fun c => if c = '+' then ' ' else c)

/-! ## `urlsplit` / `urlparse` -/

/-- Result of `urlsplit` (the `params` component is added by
`urlparse`). -/
structure SplitResult where
  scheme : List Char
  netloc : List Char
  path : List Char
  query : List Char
  fragment : List Char
deriving DecidableEq

/-- Full result of `urlparse`. -/
structure ParseResult where
  scheme : List Char
  netloc : List Char
  path : List Char
  params : List Char
  query : List Char
  fragment : List Char
deriving DecidableEq

/-- `url.find(':')` based scheme recognition: the part before the first `:`
must be nonempty, start with an ASCII letter, and consist of scheme
characters; it is lowercased.  Returns `(scheme, rest)`. -/
def splitScheme (l : List Char) : List Char × List Char :=
  match splitOnFirst ':' l with
  | some (a, b) =>
    if a ≠ [] ∧ (a.headD ' ').isAlpha ∧ a.all isSchemeChar
    then (a.map Char.toLower, b)
    else ([], l)
  | none => ([], l)

/-- `_splitnetloc`: the network location runs until the first of
`/ ? #`; returns `(netloc, rest)`. -/
def netlocSpan : List Char → List Char × List Char
  | [] => ([], [])
  | c :: t =>
    if c = '/' || c = '?' || c = '#' then ([], c :: t)
    else
      let p := netlocSpan t
      (c :: p.1, p.2)

/-- Fragment split (first `#`) followed by query split (first `?`), in the
order `urlsplit` performs them. -/
def splitFragQuery (scheme netloc url : List Char) : SplitResult :=
  match splitOnFirst '#' url with
  | some (a, frag) =>
    (match splitOnFirst '?' a with
     | some (p, q) => ⟨scheme, netloc, p, q, frag⟩
     | none => ⟨scheme, netloc, a, [], frag⟩)
  | none =>
    match splitOnFirst '?' url with
    | some (p, q) => ⟨scheme, netloc, p, q, []⟩
    | none => ⟨scheme, netloc, url, [], []⟩

/-- `urllib.parse.urlsplit(url)`.  `Except.error` models the
`ValueError("Invalid IPv6 URL")` raised on a netloc containing `[` without
`]` or vice versa. -/
def urlsplitPy (url0 : List Char) : Except String SplitResult :=
  match splitScheme ((url0.dropWhile isC0OrSpace).filter fun c => !isUnsafeUrlChar c) with
  | (scheme, '/' :: '/' :: rest) =>
    if ((netlocSpan rest).1.contains '[' && !(netlocSpan rest).1.contains ']')
        || ((netlocSpan rest).1.contains ']' && !(netlocSpan rest).1.contains '[') then
      .error "Invalid IPv6 URL"
    else
      .ok (splitFragQuery scheme (netlocSpan rest).1 (netlocSpan rest).2)
  | (scheme, other) => .ok (splitFragQuery scheme [] other)

/-- `uses_params`, the schemes for which `urlparse` separates path
parameters. -/
def usesParams : List (List Char) :=
  [[], "ftp".data, "hdl".data, "prospero".data, "http".data, "imap".data,
   "https".data, "shttp".data, "rtsp".data, "rtspu".data, "sip".data,
   "sips".data, "mms".data, "sftp".data, "tel".data]

/-- `_splitparams`: split path parameters at the first `;` occurring in the
last path segment (only called when the path contains `;`). -/
def splitparamsPy (l : List Char) : List Char × List Char :=
  if l.contains '/' then
    let tail0 := afterLastChar '/' l
    match splitOnFirst ';' tail0 with
    | some (a, b) => (l.take (l.length - tail0.length) ++ a, b)
    | none => (l, [])
  else
    match splitOnFirst ';' l with
    | some (a, b) => (a, b)
    | none => (l, [])

/-- `urllib.parse.urlparse(url)`. -/
def urlparsePy (url : List Char) : Except String ParseResult :=
  match urlsplitPy url with
  | .error e => .error e
  | .ok s =>
    if s.scheme ∈ usesParams ∧ s.path.contains ';' = true then
      .ok ⟨s.scheme, s.netloc, (splitparamsPy s.path).1, (splitparamsPy s.path).2,
           s.query, s.fragment⟩
    else
      .ok ⟨s.scheme, s.netloc, s.path, [], s.query, s.fragment⟩

/-- `ParseResult.hostname`: part of the netloc after the last `@`; if a `[`
is present, the part of what follows the first `[` up to the first `]`,
otherwise the part before the first `:`; lowercased; `None` when empty. -/
def hostnamePy (netloc : List Char) : Option (List Char) :=
  let hostinfo := afterLastChar '@' netloc
  let host : List Char :=
    match splitOnFirst '[' hostinfo with
    | some (_, br) => br.takeWhile (fun c => !(c == ']'))
    | none => hostinfo.takeWhile (fun c => !(c == ':'))
  if host = [] then none else some (host.map Char.toLower)

/-! ## `parse_qs` -/

/-- The per-pair step of `parse_qsl` with `keep_blank_values=False`: an
empty pair or a pair without `=` or with an empty raw value is dropped;
otherwise name and value are decoded with `unquote_plus`. -/
def qslPair (nv : List Char) : Option (List Char × List Char) :=
  if nv = [] then none
  else
    match splitOnFirst '=' nv with
    | none => none
    | some (n, v) =>
      if v = [] then none else some (unquotePlus n, unquotePlus v)

/-- `parse_qsl(qs)` with the default arguments (`keep_blank_values=False`,
`separator='&'`): the ordered list of retained, decoded
`(name, value)` pairs. -/
def parseQsl (qs : List Char) : List (List Char × List Char) :=
  (splitAllOn '&' qs).filterMap qslPair

/-- `parse_qs(qs)[name][0]` as a partial lookup: the value of the first
retained pair with the given (decoded) name, `none` when the key would be
absent from the dictionary. -/
def parseQsFirst (qs : List Char) (name : List Char) : Option (List Char) :=
  ((parseQsl qs).find? fun p => p.1 == name).map (·.2)

/-! ## `extract_video_id` -/

/-- The body of `extract_video_id` after `urlparse` succeeded: the chain of
hostname and path tests of lines 15-26 of the source, which reads only the
`netloc` (through `.hostname`), `path` and `query` components of the parse
result. -/
def extractCore (netloc path query : List Char) :
    Except String (Option (List Char)) :=
  if hostnamePy netloc = some "youtu.be".data
      ∨ hostnamePy netloc = some "www.youtu.be".data then
    .ok (some (path.drop 1))
  else if hostnamePy netloc = some "youtube.com".data
      ∨ hostnamePy netloc = some "www.youtube.com".data then
    if path = "/watch".data then
      match parseQsFirst query "v".data with
      | some v => .ok (some v)
      | none => .error "'v'"
    else if "/embed/".data.isPrefixOf path then
      -- `path.split('/')[2]`; the prefix guarantees at least 3 pieces
      .ok (some ((splitAllOn '/' path).getD 2 []))
    else if "/v/".data.isPrefixOf path then
      .ok (some ((splitAllOn '/' path).getD 2 []))
    else .ok none
  else .ok none

/-- `extract_video_id`, on `List Char`.  `Except.error` models an uncaught
exception escaping the function: `KeyError('v')` from `parse_qs(...)['v']`
(whose `str()` is `'v'`), or `ValueError` from `urlparse`. -/
def extractVideoIdL (url : List Char) : Except String (Option (List Char)) :=
  match urlparsePy url with
  | .error e => .error e
  | .ok parsed => extractCore parsed.netloc parsed.path parsed.query

/-- `extract_video_id(url)` on `String`. -/
def extract_video_id (url : String) : Except String (Option String) :=
  (extractVideoIdL url.data).map (Option.map String.mk)

/-! ## `get_transcript` and the CLI entry point -/

/-- The dictionary returned by `get_transcript`:
`success ts id` is `{"success": True, "transcript": ts, "video_id": id}`,
`invalidUrl` is `{"error": "Invalid YouTube URL"}`, and
`failure e` is `{"success": False, "error": e}`. -/
inductive TResult (α : Type) where
  | success (transcript : List α) (video_id : String)
  | invalidUrl
  | failure (error : String)
deriving DecidableEq

/-- `get_transcript(video_url)`.  `service` is the external
`YouTubeTranscriptApi.get_transcript` oracle; the second component of the
result is the list of video ids the service was invoked with, in order.
The `try`/`except Exception` block catches both exceptions escaping
`extract_video_id` and exceptions raised by the service, turning them into
the failure record; `if not video_id` is falsiness, so both `None` and the
empty string short-circuit to the invalid-URL record. -/
def get_transcript {α : Type} (service : String → Except String (List α))
    (video_url : String) : TResult α × List String :=
  match extract_video_id video_url with
  | .error e => (.failure e, [])
  | .ok none => (.invalidUrl, [])
  | .ok (some vid) =>
    if vid = "" then (.invalidUrl, [])
    else
      match service vid with
      | .ok transcript => (.success transcript vid, [vid])
      | .error e => (.failure e, [vid])

/-- The exact line printed on a wrong argument count:
`json.dumps({"error": "Usage: get_transcript.py <youtube_url>"})`. -/
def usageJson : String :=
  "\x7b\"error\": \"Usage: get_transcript.py <youtube_url>\"\x7d"

/-- What the `__main__` block prints: the usage error, or the JSON
serialization of a transcript result. -/
inductive CliOutput (α : Type) where
  | usage
  | result (r : TResult α)
deriving DecidableEq

/-- The line printed for a `CliOutput`, given a serializer for result
records (the serialization of `TResult` itself is not modelled; only the
usage line is a fixed string the claims mention). -/
def cliPrinted {α : Type} (render : TResult α → String) : CliOutput α → String
  | .usage => usageJson
  | .result r => render r

/-- The `if __name__ == "__main__"` block: with an argument vector of
length exactly 2 (program name plus one URL) it prints the serialized
result of `get_transcript` and exits 0; otherwise it prints the usage
record and exits 1.  Returns (printed output, exit code). -/
def mainEntry {α : Type} (service : String → Except String (List α))
    (argv : List String) : CliOutput α × Nat :=
  match argv with
  | [_, url] => (.result (get_transcript service url).1, 0)
  | _ => (.usage, 1)

/-! ## Character classes used in claim hypotheses

These predicates name the character sets under which the URL shapes of the
spec round-trip through the parser unchanged; they come from the spec side
of the claims, not from the code. -/

/-- Characters that survive inside a path segment: not a query / fragment /
parameter delimiter and not one of the characters `urlsplit` removes. -/
def pathChar (c : Char) : Bool :=
  !(c == '?' || c == '#' || c == ';' || c == '\t' || c == '\r' || c == '\n')

/-- `pathChar` and additionally not a path separator. -/
def plainChar (c : Char) : Bool :=
  pathChar c && !(c == '/')

/-- `plainChar` and additionally not a query delimiter or escape
character, so the character also survives `parse_qs` unchanged. -/
def queryPlainChar (c : Char) : Bool :=
  plainChar c && !(c == '&' || c == '%' || c == '+')

/-! ## Lemmas about the splitting helpers -/

theorem splitOnFirst_cons_self (d : Char) (b : List Char) :
    splitOnFirst d (d :: b) = some ([], b) := by
  simp [splitOnFirst]

theorem splitOnFirst_append (d : Char) (a b : List Char) (ha : d ∉ a) :
    splitOnFirst d (a ++ b) =
      (splitOnFirst d b).map fun p => (a ++ p.1, p.2) := by
  induction a with
  | nil =>
    simp only [List.nil_append, List.nil_append]
    cases splitOnFirst d b with
    | none => rfl
    | some p => rfl
  | cons c t ih =>
    have hc : c ≠ d := fun h => ha (h ▸ List.mem_cons_self c t)
    have ht : d ∉ t := fun h => ha (List.mem_cons_of_mem c h)
    simp only [List.cons_append, splitOnFirst, if_neg hc, List.append_eq]
    rw [ih ht]
    cases splitOnFirst d b with
    | none => rfl
    | some p => rfl

theorem splitOnFirst_eq_none (d : Char) (l : List Char) (h : d ∉ l) :
    splitOnFirst d l = none := by
  have := splitOnFirst_append d l [] h
  simpa [splitOnFirst] using this

theorem splitAllOn_cons_self (d : Char) (t : List Char) :
    splitAllOn d (d :: t) = [] :: splitAllOn d t := by
  simp [splitAllOn]

theorem splitAllOn_ne_nil (d : Char) (l : List Char) :
    splitAllOn d l ≠ [] := by
  cases l with
  | nil => simp [splitAllOn]
  | cons c t =>
    simp only [splitAllOn]
    split
    · simp
    · cases h : splitAllOn d t with
      | nil => simp
      | cons hh tt => simp

theorem splitAllOn_append (d : Char) (a b hd : List Char)
    (tl : List (List Char)) (ha : d ∉ a) (hb : splitAllOn d b = hd :: tl) :
    splitAllOn d (a ++ b) = (a ++ hd) :: tl := by
  induction a with
  | nil => simpa using hb
  | cons c t ih =>
    have hc : c ≠ d := fun h => ha (h ▸ List.mem_cons_self c t)
    have ht : d ∉ t := fun h => ha (List.mem_cons_of_mem c h)
    simp only [List.cons_append, splitAllOn, if_neg hc, List.append_eq]
    rw [ih ht]

theorem splitAllOn_not_mem (d : Char) (l : List Char) (h : d ∉ l) :
    splitAllOn d l = [l] := by
  have := splitAllOn_append d l [] [] [] h (by simp [splitAllOn])
  simpa using this

theorem netlocSpan_cons_slash (r : List Char) :
    netlocSpan ('/' :: r) = ([], '/' :: r) := by
  simp [netlocSpan]

theorem netlocSpan_append (a b : List Char)
    (ha : ∀ c ∈ a, (c == '/' || c == '?' || c == '#') = false) :
    netlocSpan (a ++ b) = (a ++ (netlocSpan b).1, (netlocSpan b).2) := by
  induction a with
  | nil => simp
  | cons c t ih =>
    have hc := ha c (List.mem_cons_self c t)
    have ht : ∀ c ∈ t, (c == '/' || c == '?' || c == '#') = false :=
      fun c h => ha c (List.mem_cons_of_mem _ h)
    have hcc : ¬(c = '/' || c = '?' || c = '#') = true := by
      simpa using hc
    simp only [List.cons_append, netlocSpan, if_neg hcc, List.append_eq]
    rw [ih ht]

/-! ## Lemmas about percent decoding -/

theorem quoteToks_cons_ne (c : Char) (t : List Char) (hc : c ≠ '%') :
    quoteToks (c :: t) = QuoteTok.lit c :: quoteToks t := by
  rw [quoteToks.eq_def]
  split <;> simp_all

theorem quoteToks_no_pct (l : List Char) (h : '%' ∉ l) :
    quoteToks l = l.map QuoteTok.lit := by
  induction l with
  | nil => rfl
  | cons c t ih =>
    have hc : c ≠ '%' := fun hcc => h (hcc ▸ List.mem_cons_self c t)
    have ht : '%' ∉ t := fun hm => h (List.mem_cons_of_mem c hm)
    rw [quoteToks_cons_ne c t hc, ih ht, List.map_cons]

theorem dequoteToks_lits (l : List Char) :
    dequoteToks (l.map QuoteTok.lit) [] = l := by
  induction l with
  | nil => rfl
  | cons c t ih => simpa [dequoteToks, utf8Decode, utf8Go] using ih

theorem unquote_id (l : List Char) (h : '%' ∉ l) : unquote l = l := by
  rw [unquote, quoteToks_no_pct l h, dequoteToks_lits]

theorem unquotePlus_id (l : List Char) (h1 : '%' ∉ l) (h2 : '+' ∉ l) :
    unquotePlus l = l := by
  have hmap : (l.map fun c => if c = '+' then ' ' else c) = l := by
    conv_rhs => rw [← List.map_id l]
    exact List.map_congr_left fun c hc => by
      have : c ≠ '+' := fun h => h2 (h ▸ hc)
      simp [this]
  rw [unquotePlus, hmap, unquote_id l h1]

/-! ## Consequences of the character classes -/

theorem pathChar_elim (c : Char) (h : pathChar c = true) :
    c ≠ '?' ∧ c ≠ '#' ∧ c ≠ ';' ∧ c ≠ '\t' ∧ c ≠ '\r' ∧ c ≠ '\n' := by
  simp only [pathChar, Bool.not_eq_true', Bool.or_eq_false_iff, beq_eq_false_iff_ne] at h
  tauto

theorem plainChar_path (c : Char) (h : plainChar c = true) : pathChar c = true := by
  simp only [plainChar, Bool.and_eq_true] at h
  exact h.1

theorem plainChar_slash (c : Char) (h : plainChar c = true) : c ≠ '/' := by
  simp only [plainChar, Bool.and_eq_true, Bool.not_eq_true', beq_eq_false_iff_ne] at h
  exact h.2

theorem queryPlainChar_plain (c : Char) (h : queryPlainChar c = true) :
    plainChar c = true := by
  simp only [queryPlainChar, Bool.and_eq_true] at h
  exact h.1

theorem queryPlainChar_elim (c : Char) (h : queryPlainChar c = true) :
    c ≠ '&' ∧ c ≠ '%' ∧ c ≠ '+' := by
  simp only [queryPlainChar, Bool.and_eq_true, Bool.not_eq_true',
    Bool.or_eq_false_iff, beq_eq_false_iff_ne] at h
  tauto

theorem not_mem_of_pathChar (x : List Char) (hx : ∀ c ∈ x, pathChar c = true)
    (d : Char) (hd : pathChar d = false) : d ∉ x := by
  intro hm
  rw [hx d hm] at hd
  cases hd

theorem filter_unsafe_of_pathChar (x : List Char)
    (hx : ∀ c ∈ x, pathChar c = true) :
    x.filter (fun c => !isUnsafeUrlChar c) = x := by
  rw [List.filter_eq_self]
  intro c hc
  have h := pathChar_elim c (hx c hc)
  simp only [isUnsafeUrlChar, Bool.not_eq_true', Bool.or_eq_false_iff,
    beq_eq_false_iff_ne]
  tauto

/-! ## Parsing the URL shapes of the spec -/

theorem urlsplitPy_https (tail : List Char)
    (hsafe : tail.filter (fun c => !isUnsafeUrlChar c) = tail) :
    urlsplitPy ("https://".data ++ tail) =
      if ((netlocSpan tail).1.contains '[' && !(netlocSpan tail).1.contains ']')
          || ((netlocSpan tail).1.contains ']' && !(netlocSpan tail).1.contains '[') then
        .error "Invalid IPv6 URL"
      else
        .ok (splitFragQuery "https".data (netlocSpan tail).1 (netlocSpan tail).2) := by
  have hdrop : ("https://".data ++ tail).dropWhile isC0OrSpace =
      "https://".data ++ tail := by
    rw [show "https://".data ++ tail = 'h' :: ("ttps://".data ++ tail) from rfl,
      List.dropWhile_cons]
    simp [isC0OrSpace]
  have hfilter : ("https://".data ++ tail).filter (fun c => !isUnsafeUrlChar c) =
      "https://".data ++ tail := by
    rw [List.filter_append, hsafe]
    rfl
  have hscheme : splitScheme ("https://".data ++ tail) =
      ("https".data, '/' :: '/' :: tail) := by
    unfold splitScheme
    rw [show "https://".data ++ tail = "https".data ++ (':' :: ('/' :: '/' :: tail))
          from rfl,
      splitOnFirst_append ':' "https".data _ (by decide), splitOnFirst_cons_self]
    simp only [Option.map_some']
    rw [if_pos (by refine ⟨by decide, by decide, by decide⟩)]
    rfl
  unfold urlsplitPy
  rw [hdrop, hfilter, hscheme]
  rfl

theorem urlsplitPy_https_host (host rest : List Char)
    (hh1 : ∀ c ∈ host, (c == '/' || c == '?' || c == '#') = false)
    (hh2 : '[' ∉ host) (hh3 : ']' ∉ host)
    (hhsafe : host.filter (fun c => !isUnsafeUrlChar c) = host)
    (hrsafe : rest.filter (fun c => !isUnsafeUrlChar c) = rest) :
    urlsplitPy ("https://".data ++ (host ++ '/' :: rest)) =
      .ok (splitFragQuery "https".data host ('/' :: rest)) := by
  have hsafe : (host ++ '/' :: rest).filter (fun c => !isUnsafeUrlChar c) =
      host ++ '/' :: rest := by
    rw [List.filter_append, hhsafe, List.filter_cons]
    show host ++ ('/' :: rest.filter fun c => !isUnsafeUrlChar c) = host ++ '/' :: rest
    rw [hrsafe]
  rw [urlsplitPy_https _ hsafe, netlocSpan_append host ('/' :: rest) hh1,
    netlocSpan_cons_slash]
  simp [hh2, hh3]

/-- The `urlparse` layer on top of a computed `urlsplit`, in the common
case of an `https` URL whose path carries no `;`. -/
theorem urlparsePy_of_urlsplit (url : List Char) (s : SplitResult)
    (hs : urlsplitPy url = .ok s) (hnosemi : ';' ∉ s.path) :
    urlparsePy url = .ok ⟨s.scheme, s.netloc, s.path, [], s.query, s.fragment⟩ := by
  unfold urlparsePy
  rw [hs]
  simp [hnosemi]

theorem urlparsePy_hostSlash (host x : List Char)
    (hh1 : ∀ c ∈ host, (c == '/' || c == '?' || c == '#') = false)
    (hh2 : '[' ∉ host) (hh3 : ']' ∉ host)
    (hhsafe : host.filter (fun c => !isUnsafeUrlChar c) = host)
    (hx : ∀ c ∈ x, pathChar c = true) :
    urlparsePy ("https://".data ++ (host ++ '/' :: x)) =
      .ok ⟨"https".data, host, '/' :: x, [], [], []⟩ := by
  have hq : '?' ∉ x := not_mem_of_pathChar x hx '?' (by decide)
  have hf : '#' ∉ x := not_mem_of_pathChar x hx '#' (by decide)
  have hsemi : ';' ∉ x := not_mem_of_pathChar x hx ';' (by decide)
  have hfmem : '#' ∉ '/' :: x := by
    intro hm
    rcases List.mem_cons.mp hm with h | h
    · exact absurd h (by decide)
    · exact hf h
  have hqmem : '?' ∉ '/' :: x := by
    intro hm
    rcases List.mem_cons.mp hm with h | h
    · exact absurd h (by decide)
    · exact hq h
  have hfq : splitFragQuery "https".data host ('/' :: x) =
      ⟨"https".data, host, '/' :: x, [], []⟩ := by
    unfold splitFragQuery
    rw [splitOnFirst_eq_none '#' _ hfmem, splitOnFirst_eq_none '?' _ hqmem]
  have hs := urlsplitPy_https_host host x hh1 hh2 hh3 hhsafe
    (filter_unsafe_of_pathChar x hx)
  have hnosemi : ';' ∉ (splitFragQuery "https".data host ('/' :: x)).path := by
    rw [hfq]
    intro hm
    rcases List.mem_cons.mp hm with h | h
    · exact absurd h (by decide)
    · exact hsemi h
  have h := urlparsePy_of_urlsplit _ _ hs hnosemi
  rw [hfq] at h
  exact h

theorem urlparsePy_watch (host q : List Char)
    (hh1 : ∀ c ∈ host, (c == '/' || c == '?' || c == '#') = false)
    (hh2 : '[' ∉ host) (hh3 : ']' ∉ host)
    (hhsafe : host.filter (fun c => !isUnsafeUrlChar c) = host)
    (hq1 : '#' ∉ q)
    (hq2 : q.filter (fun c => !isUnsafeUrlChar c) = q) :
    urlparsePy ("https://".data ++ (host ++ '/' :: ("watch?".data ++ q))) =
      .ok ⟨"https".data, host, "/watch".data, [], q, []⟩ := by
  have hrsafe : ("watch?".data ++ q).filter (fun c => !isUnsafeUrlChar c) =
      "watch?".data ++ q := by
    rw [List.filter_append, hq2]
    rfl
  have hfmem : '#' ∉ '/' :: ("watch?".data ++ q) := by
    intro hm
    rcases List.mem_cons.mp hm with h | h
    · exact absurd h (by decide)
    · rcases List.mem_append.mp h with h | h
      · revert h
        decide
      · exact hq1 h
  have hfq : splitFragQuery "https".data host ('/' :: ("watch?".data ++ q)) =
      ⟨"https".data, host, "/watch".data, q, []⟩ := by
    unfold splitFragQuery
    rw [splitOnFirst_eq_none '#' _ hfmem,
      show '/' :: ("watch?".data ++ q) = "/watch".data ++ ('?' :: q) from rfl,
      splitOnFirst_append '?' "/watch".data _ (by decide), splitOnFirst_cons_self]
    rfl
  have hs := urlsplitPy_https_host host ("watch?".data ++ q) hh1 hh2 hh3 hhsafe hrsafe
  have hnosemi : ';' ∉ (splitFragQuery "https".data host
      ('/' :: ("watch?".data ++ q))).path := by
    rw [hfq]
    show ';' ∉ "/watch".data
    decide
  have h := urlparsePy_of_urlsplit _ _ hs hnosemi
  rw [hfq] at h
  exact h

/-! ## `parse_qs` on the query shapes of the spec -/

/-- The pair-decoding function of `parse_qsl`, applied to a raw pair
`v=x` with `x` free of `%` and `+`, retains `('v', x)`. -/
theorem qslPair_vx (x : List Char) (hne : x ≠ [])
    (h2 : '%' ∉ x) (h3 : '+' ∉ x) :
    qslPair ("v=".data ++ x) = some (['v'], x) := by
  show (if x = [] then (none : Option (List Char × List Char))
        else some (unquotePlus ['v'], unquotePlus x)) = some (['v'], x)
  rw [if_neg hne, unquotePlus_id x h2 h3,
    show unquotePlus ['v'] = ['v'] from by decide]

theorem parseQsl_vx (x : List Char) (hne : x ≠ [])
    (h1 : '&' ∉ x) (h2 : '%' ∉ x) (h3 : '+' ∉ x) :
    parseQsl ("v=".data ++ x) = [(['v'], x)] := by
  have hs : splitAllOn '&' ("v=".data ++ x) = ["v=".data ++ x] := by
    apply splitAllOn_not_mem
    intro hm
    rcases List.mem_append.mp hm with h | h
    · revert h
      decide
    · exact h1 h
  unfold parseQsl
  rw [hs]
  exact (List.filterMap_cons_some (qslPair_vx x hne h2 h3)).trans rfl

theorem parseQsl_vx_more (x b : List Char) (hne : x ≠ [])
    (h1 : '&' ∉ x) (h2 : '%' ∉ x) (h3 : '+' ∉ x) :
    parseQsl ("v=".data ++ x ++ '&' :: b) = (['v'], x) :: parseQsl b := by
  have hnm : '&' ∉ "v=".data ++ x := by
    intro hm
    rcases List.mem_append.mp hm with h | h
    · revert h
      decide
    · exact h1 h
  have hs : splitAllOn '&' ("v=".data ++ x ++ '&' :: b) =
      ("v=".data ++ x) :: splitAllOn '&' b := by
    rw [splitAllOn_append '&' ("v=".data ++ x) ('&' :: b) [] (splitAllOn '&' b) hnm
        (splitAllOn_cons_self '&' b), List.append_nil]
  unfold parseQsl
  rw [hs]
  exact List.filterMap_cons_some (qslPair_vx x hne h2 h3)

/-! ## `extract_video_id` on the URL shapes of the spec -/

theorem extractVideoIdL_ok (url : List Char) (p : ParseResult)
    (h : urlparsePy url = .ok p) :
    extractVideoIdL url = extractCore p.netloc p.path p.query := by
  unfold extractVideoIdL
  rw [h]

/-- `https://youtu.be/x` (the whole remaining path is returned, `x` may
contain further `/`). -/
theorem extract_youtu (x : List Char) (hx : ∀ c ∈ x, pathChar c = true) :
    extractVideoIdL ("https://youtu.be/".data ++ x) = .ok (some x) := by
  have hp := urlparsePy_hostSlash "youtu.be".data x (by decide) (by decide)
    (by decide) (by decide) hx
  rw [show "https://youtu.be/".data ++ x =
      "https://".data ++ ("youtu.be".data ++ '/' :: x) from rfl,
    extractVideoIdL_ok _ _ hp]
  show extractCore "youtu.be".data ('/' :: x) [] = .ok (some x)
  unfold extractCore
  rw [if_pos (Or.inl (by decide))]
  rfl

/-- `https://www.youtu.be/x`. -/
theorem extract_wwwYoutu (x : List Char) (hx : ∀ c ∈ x, pathChar c = true) :
    extractVideoIdL ("https://www.youtu.be/".data ++ x) = .ok (some x) := by
  have hp := urlparsePy_hostSlash "www.youtu.be".data x (by decide) (by decide)
    (by decide) (by decide) hx
  rw [show "https://www.youtu.be/".data ++ x =
      "https://".data ++ ("www.youtu.be".data ++ '/' :: x) from rfl,
    extractVideoIdL_ok _ _ hp]
  show extractCore "www.youtu.be".data ('/' :: x) [] = .ok (some x)
  unfold extractCore
  rw [if_pos (Or.inr (by decide))]
  rfl

theorem parseQsFirst_of_head_v (q x : List Char)
    (rest : List (List Char × List Char))
    (hqs : parseQsl q = (['v'], x) :: rest) :
    parseQsFirst q "v".data = some x := by
  unfold parseQsFirst
  rw [hqs, List.find?_cons_of_pos _ (by rfl)]
  rfl

/-- `https://HOST/watch?Q` where the parsed query retains `('v', x)`
first: extraction returns `x`. -/
theorem extract_watch (host q x : List Char)
    (rest : List (List Char × List Char))
    (hhost : host = "youtube.com".data ∨ host = "www.youtube.com".data)
    (hq1 : '#' ∉ q) (hq2 : q.filter (fun c => !isUnsafeUrlChar c) = q)
    (hqs : parseQsl q = (['v'], x) :: rest) :
    extractVideoIdL ("https://".data ++ (host ++ '/' :: ("watch?".data ++ q))) =
      .ok (some x) := by
  have hfind := parseQsFirst_of_head_v q x rest hqs
  rcases hhost with h | h <;> subst h
  · have hp := urlparsePy_watch "youtube.com".data q (by decide) (by decide)
      (by decide) (by decide) hq1 hq2
    rw [extractVideoIdL_ok _ _ hp]
    show extractCore "youtube.com".data "/watch".data q = .ok (some x)
    unfold extractCore
    rw [if_neg (by decide), if_pos (Or.inl (by decide)), if_pos rfl, hfind]
  · have hp := urlparsePy_watch "www.youtube.com".data q (by decide) (by decide)
      (by decide) (by decide) hq1 hq2
    rw [extractVideoIdL_ok _ _ hp]
    show extractCore "www.youtube.com".data "/watch".data q = .ok (some x)
    unfold extractCore
    rw [if_neg (by decide), if_pos (Or.inr (by decide)), if_pos rfl, hfind]

/-- `https://youtube.com/embed/x` with `x` a single path segment. -/
theorem extract_embed (x : List Char) (hx : ∀ c ∈ x, plainChar c = true) :
    extractVideoIdL ("https://youtube.com/embed/".data ++ x) = .ok (some x) := by
  have hslash : '/' ∉ x := fun hm => plainChar_slash '/' (hx '/' hm) rfl
  have hconc : ∀ c ∈ "embed/".data, pathChar c = true := by decide
  have hpath : ∀ c ∈ "embed/".data ++ x, pathChar c = true := by
    intro c hc
    rcases List.mem_append.mp hc with h | h
    · exact hconc c h
    · exact plainChar_path c (hx c h)
  have hp := urlparsePy_hostSlash "youtube.com".data ("embed/".data ++ x)
    (by decide) (by decide) (by decide) (by decide) hpath
  have hsplit : splitAllOn '/' ('/' :: ("embed/".data ++ x)) =
      [[], "embed".data, x] := by
    rw [splitAllOn_cons_self,
      show "embed/".data ++ x = "embed".data ++ ('/' :: x) from rfl,
      splitAllOn_append '/' "embed".data ('/' :: x) [] (splitAllOn '/' x)
        (by decide) (splitAllOn_cons_self '/' x),
      splitAllOn_not_mem '/' x hslash, List.append_nil]
  have hwatch : ¬('/' :: ("embed/".data ++ x) = "/watch".data) := by
    intro h
    rw [show "/watch".data = '/' :: "watch".data from rfl] at h
    injection h with _ h2
    rw [show "embed/".data ++ x = 'e' :: ("mbed/".data ++ x) from rfl,
      show "watch".data = 'w' :: "atch".data from rfl] at h2
    injection h2 with h3 _
    exact absurd h3 (by decide)
  have hpref : "/embed/".data.isPrefixOf ('/' :: ("embed/".data ++ x)) = true := by
    rw [List.isPrefixOf_iff_prefix]
    show "/embed/".data <+: "/embed/".data ++ x
    exact List.prefix_append _ _
  rw [show "https://youtube.com/embed/".data ++ x =
      "https://".data ++ ("youtube.com".data ++ '/' :: ("embed/".data ++ x))
      from rfl,
    extractVideoIdL_ok _ _ hp]
  show extractCore "youtube.com".data ('/' :: ("embed/".data ++ x)) [] = .ok (some x)
  unfold extractCore
  rw [if_neg (by decide), if_pos (Or.inl (by decide)), if_neg hwatch,
    if_pos hpref, hsplit]
  rfl

/-- `https://youtube.com/v/x` with `x` a single path segment. -/
theorem extract_vPath (x : List Char) (hx : ∀ c ∈ x, plainChar c = true) :
    extractVideoIdL ("https://youtube.com/v/".data ++ x) = .ok (some x) := by
  have hslash : '/' ∉ x := fun hm => plainChar_slash '/' (hx '/' hm) rfl
  have hconc : ∀ c ∈ "v/".data, pathChar c = true := by decide
  have hpath : ∀ c ∈ "v/".data ++ x, pathChar c = true := by
    intro c hc
    rcases List.mem_append.mp hc with h | h
    · exact hconc c h
    · exact plainChar_path c (hx c h)
  have hp := urlparsePy_hostSlash "youtube.com".data ("v/".data ++ x)
    (by decide) (by decide) (by decide) (by decide) hpath
  have hsplit : splitAllOn '/' ('/' :: ("v/".data ++ x)) = [[], "v".data, x] := by
    rw [splitAllOn_cons_self,
      show "v/".data ++ x = "v".data ++ ('/' :: x) from rfl,
      splitAllOn_append '/' "v".data ('/' :: x) [] (splitAllOn '/' x)
        (by decide) (splitAllOn_cons_self '/' x),
      splitAllOn_not_mem '/' x hslash, List.append_nil]
  have hwatch : ¬('/' :: ("v/".data ++ x) = "/watch".data) := by
    intro h
    rw [show "/watch".data = '/' :: "watch".data from rfl] at h
    injection h with _ h2
    rw [show "v/".data ++ x = 'v' :: ("/".data ++ x) from rfl,
      show "watch".data = 'w' :: "atch".data from rfl] at h2
    injection h2 with h3 _
    exact absurd h3 (by decide)
  have hembed : ¬("/embed/".data.isPrefixOf ('/' :: ("v/".data ++ x)) = true) := by
    intro h
    exact Bool.noConfusion h
  have hpref : "/v/".data.isPrefixOf ('/' :: ("v/".data ++ x)) = true := by
    rw [List.isPrefixOf_iff_prefix]
    show "/v/".data <+: "/v/".data ++ x
    exact List.prefix_append _ _
  rw [show "https://youtube.com/v/".data ++ x =
      "https://".data ++ ("youtube.com".data ++ '/' :: ("v/".data ++ x))
      from rfl,
    extractVideoIdL_ok _ _ hp]
  show extractCore "youtube.com".data ('/' :: ("v/".data ++ x)) [] = .ok (some x)
  unfold extractCore
  rw [if_neg (by decide), if_pos (Or.inl (by decide)), if_neg hwatch,
    if_neg hembed, if_pos hpref, hsplit]
  rfl

/-! ## Derived character facts -/

theorem queryPlain_path (x : List Char) (hx : ∀ c ∈ x, queryPlainChar c = true) :
    ∀ c ∈ x, pathChar c = true :=
  fun c hc => plainChar_path c (queryPlainChar_plain c (hx c hc))

theorem queryPlain_amp (x : List Char) (hx : ∀ c ∈ x, queryPlainChar c = true) :
    '&' ∉ x :=
  fun hm => (queryPlainChar_elim _ (hx _ hm)).1 rfl

theorem queryPlain_pct (x : List Char) (hx : ∀ c ∈ x, queryPlainChar c = true) :
    '%' ∉ x :=
  fun hm => (queryPlainChar_elim _ (hx _ hm)).2.1 rfl

theorem queryPlain_plus (x : List Char) (hx : ∀ c ∈ x, queryPlainChar c = true) :
    '+' ∉ x :=
  fun hm => (queryPlainChar_elim _ (hx _ hm)).2.2 rfl

theorem queryPlain_hash (x : List Char) (hx : ∀ c ∈ x, queryPlainChar c = true) :
    '#' ∉ x :=
  not_mem_of_pathChar x (queryPlain_path x hx) '#' (by decide)

/-- `#` does not occur in a query of the form `v=x` (`x` query-plain). -/
theorem vq_no_hash (x : List Char) (hx : ∀ c ∈ x, queryPlainChar c = true) :
    '#' ∉ "v=".data ++ x := by
  intro hm
  rcases List.mem_append.mp hm with h | h
  · revert h
    decide
  · exact queryPlain_hash x hx h

/-- The tab / CR / LF filter is the identity on a query of the form
`v=x`. -/
theorem vq_filter_safe (x : List Char) (hx : ∀ c ∈ x, queryPlainChar c = true) :
    ("v=".data ++ x).filter (fun c => !isUnsafeUrlChar c) = "v=".data ++ x := by
  rw [List.filter_append, filter_unsafe_of_pathChar x (queryPlain_path x hx)]
  rfl

/-! ## Services used as concrete oracles in witnesses -/

/-- A transcript service that always fails with message `boom`. -/
def boomService : String → Except String (List Unit) := fun _ => .error "boom"

/-- A transcript service that always succeeds with an empty segment
list. -/
def okService : String → Except String (List Unit) := fun _ => .ok []

/-- A transcript service over `Nat` segments. -/
def natService : String → Except String (List Nat) := fun _ => .ok [3, 1, 4]

/-- A trivial serializer for result records. -/
def renderU : TResult Unit → String := fun _ => ""

/-- Evaluation of `get_transcript` once extraction yielded an
identifier. -/
theorem get_transcript_some {α : Type} (service : String → Except String (List α))
    (url id : String) (h : extract_video_id url = .ok (some id)) :
    get_transcript service url =
      if id = "" then (.invalidUrl, [])
      else
        match service id with
        | .ok transcript => (.success transcript id, [id])
        | .error e => (.failure e, [id]) := by
  unfold get_transcript
  rw [h]

/-! ## The claims -/

/-- C2: for the input URL `https://www.youtube.com/watch` (path `/watch`
with no `v` query parameter) the run produces a handled failure result, not
an unhandled fault: `extract_video_id` raises `KeyError('v')` (modelled as
`Except.error "'v'"`), the `try`/`except` in `get_transcript` catches it,
and the program returns the record `{"success": False, "error": "'v'"}`
without calling the external service. -/
theorem c2_watch_without_v {α : Type} (service : String → Except String (List α)) :
    extract_video_id "https://www.youtube.com/watch" = .error "'v'" ∧
    get_transcript service "https://www.youtube.com/watch" = (.failure "'v'", []) := by
  have h : extract_video_id "https://www.youtube.com/watch" = .error "'v'" := by
    decide
  refine ⟨h, ?_⟩
  unfold get_transcript
  rw [h]

/-- C4: whenever the external service raises (returns an error) on the
extracted identifier, `get_transcript` returns exactly
`{"success": False, "error": str(e)}`, the exception is not propagated,
and the CLI entry prints that single record and exits 0. -/
theorem c4_fetch_error_handled {α : Type}
    (service : String → Except String (List α)) (url id e progName : String)
    (hid : extract_video_id url = .ok (some id)) (hne : id ≠ "")
    (hsvc : service id = .error e) :
    get_transcript service url = (.failure e, [id]) ∧
    mainEntry service [progName, url] = (.result (.failure e), 0) := by
  have h1 : get_transcript service url = (.failure e, [id]) := by
    rw [get_transcript_some service url id hid, if_neg hne, hsvc]
  refine ⟨h1, ?_⟩
  show ((CliOutput.result (get_transcript service url).1, 0) : CliOutput α × Nat)
      = (.result (.failure e), 0)
  rw [h1]

theorem c4_witness :
    get_transcript boomService "https://youtu.be/abc" = (.failure "boom", ["abc"]) ∧
    mainEntry boomService ["get_transcript.py", "https://youtu.be/abc"] =
      (.result (.failure "boom"), 0) :=
  c4_fetch_error_handled boomService "https://youtu.be/abc" "abc" "boom"
    "get_transcript.py" (by decide) (by decide) rfl

/-- C5: the external service is invoked exactly once (with exactly the
extracted identifier) when extraction yields a non-empty identifier, and
zero times when extraction yields `None` — in which case the result is the
record `{"error": "Invalid YouTube URL"}`.  (When extraction yields the
empty string the service is also not invoked; that falsiness case is
claim C9.) -/
theorem c5_service_call_discipline {α : Type}
    (service : String → Except String (List α)) (url id : String) :
    (extract_video_id url = .ok (some id) → id ≠ "" →
      (get_transcript service url).2 = [id]) ∧
    (extract_video_id url = .ok none →
      get_transcript service url = (.invalidUrl, [])) := by
  constructor
  · intro hid hne
    rw [get_transcript_some service url id hid, if_neg hne]
    cases service id <;> rfl
  · intro h
    unfold get_transcript
    rw [h]

theorem c5_witness :
    (get_transcript okService "https://youtu.be/abc").2 = ["abc"] ∧
    get_transcript okService "https://vimeo.com/123" = (.invalidUrl, []) :=
  ⟨(c5_service_call_discipline okService "https://youtu.be/abc" "abc").1
      (by decide) (by decide),
   (c5_service_call_discipline okService "https://vimeo.com/123" "x").2
      (by decide)⟩

/-- C7: when extraction yields a (non-empty) identifier and the service
returns a segment sequence, `get_transcript` returns exactly
`{"success": True, "transcript": segs, "video_id": id}` — the sequence is
passed through unchanged and in order — with exactly one service call. -/
theorem c7_success_passthrough {α : Type}
    (service : String → Except String (List α)) (url id : String)
    (segs : List α)
    (hid : extract_video_id url = .ok (some id)) (hne : id ≠ "")
    (hsvc : service id = .ok segs) :
    get_transcript service url = (.success segs id, [id]) := by
  rw [get_transcript_some service url id hid, if_neg hne, hsvc]

theorem c7_witness :
    get_transcript natService "https://youtu.be/abc" =
      (.success [3, 1, 4] "abc", ["abc"]) :=
  c7_success_passthrough natService "https://youtu.be/abc" "abc" [3, 1, 4]
    (by decide) (by decide) rfl

/-- C8: with an argument vector whose length is not 2 (program name plus
exactly one URL) the program prints the usage JSON object and exits 1;
with exactly one URL argument it prints a single result record and exits
0. -/
theorem c8_cli_usage {α : Type} (service : String → Except String (List α))
    (render : TResult α → String) (argv : List String) :
    (argv.length ≠ 2 →
      mainEntry service argv = (.usage, 1) ∧
      cliPrinted render (mainEntry service argv).1 = usageJson) ∧
    (argv.length = 2 →
      (mainEntry service argv).2 = 0 ∧
      ∃ r, (mainEntry service argv).1 = .result r) := by
  match argv with
  | [] => exact ⟨fun _ => ⟨rfl, rfl⟩, fun h => absurd h (by decide)⟩
  | [a] => exact ⟨fun _ => ⟨rfl, rfl⟩, fun h => absurd h (by simp)⟩
  | [a, b] => exact ⟨fun h => absurd rfl h, fun _ => ⟨rfl, ⟨_, rfl⟩⟩⟩
  | a :: b :: c :: t =>
    refine ⟨fun _ => ⟨rfl, rfl⟩, fun h => ?_⟩
    simp [List.length_cons] at h

theorem c8_witness :
    mainEntry okService ["get_transcript.py"] = (.usage, 1) ∧
    cliPrinted renderU (mainEntry okService ["get_transcript.py"]).1 = usageJson ∧
    (mainEntry okService ["get_transcript.py", "https://youtu.be/abc"]).2 = 0 :=
  have h1 := (c8_cli_usage okService renderU ["get_transcript.py"]).1 (by decide)
  have h2 := (c8_cli_usage okService renderU
    ["get_transcript.py", "https://youtu.be/abc"]).2 (by decide)
  ⟨h1.1, h1.2, h2.1⟩

/-- C9: when the extracted identifier is the empty string (e.g. for
`https://youtu.be/` or `https://youtube.com/embed//x`), `get_transcript`
behaves exactly as in the `None` case — `{"error": "Invalid YouTube URL"}`
with no service call — because `if not video_id` tests falsiness. -/
theorem c9_empty_identifier {α : Type}
    (service : String → Except String (List α)) (url : String)
    (h : extract_video_id url = .ok (some "")) :
    get_transcript service url = (.invalidUrl, []) := by
  rw [get_transcript_some service url "" h, if_pos rfl]

theorem c9_witness :
    get_transcript okService "https://youtu.be/" = (.invalidUrl, []) ∧
    get_transcript okService "https://youtube.com/embed//x" = (.invalidUrl, []) :=
  ⟨c9_empty_identifier okService "https://youtu.be/" (by decide),
   c9_empty_identifier okService "https://youtube.com/embed//x" (by decide)⟩

/-- C1 (counterexample): the claim as stated is false.  For the identifier
X = `a#b` — non-empty and containing neither `/` nor `?` — the URL
`https://youtu.be/a#b` extracts to `a`, not `a#b`, because `urlparse`
treats `#` as the fragment delimiter. -/
theorem c1_counterexample :
    extract_video_id "https://youtu.be/a#b" ≠ .ok (some "a#b") ∧
    extract_video_id "https://youtu.be/a#b" = .ok (some "a") :=
  ⟨by decide, by decide⟩

/-- C1 (amended): for every non-empty identifier X whose characters are
none of `/`, `?`, `#`, `;`, `&`, `%`, `+`, tab, CR or LF, each of the four
recognized URL shapes extracts exactly X. -/
theorem c1_extract_shapes (x : List Char) (hne : x ≠ [])
    (hx : ∀ c ∈ x, queryPlainChar c = true) :
    extract_video_id (String.mk ("https://www.youtube.com/watch?v=".data ++ x)) =
      .ok (some (String.mk x)) ∧
    extract_video_id (String.mk ("https://youtu.be/".data ++ x)) =
      .ok (some (String.mk x)) ∧
    extract_video_id (String.mk ("https://youtube.com/embed/".data ++ x)) =
      .ok (some (String.mk x)) ∧
    extract_video_id (String.mk ("https://youtube.com/v/".data ++ x)) =
      .ok (some (String.mk x)) := by
  have hpath := queryPlain_path x hx
  have hplain : ∀ c ∈ x, plainChar c = true :=
    fun c hc => queryPlainChar_plain c (hx c hc)
  refine ⟨?_, ?_, ?_, ?_⟩
  · show (extractVideoIdL ("https://www.youtube.com/watch?v=".data ++ x)).map
        (Option.map String.mk) = .ok (some (String.mk x))
    rw [show "https://www.youtube.com/watch?v=".data ++ x =
        "https://".data ++ ("www.youtube.com".data ++ '/' ::
          ("watch?".data ++ ("v=".data ++ x))) from rfl,
      extract_watch "www.youtube.com".data ("v=".data ++ x) x [] (Or.inr rfl)
        (vq_no_hash x hx) (vq_filter_safe x hx)
        (parseQsl_vx x hne (queryPlain_amp x hx) (queryPlain_pct x hx)
          (queryPlain_plus x hx))]
    rfl
  · show (extractVideoIdL ("https://youtu.be/".data ++ x)).map
        (Option.map String.mk) = .ok (some (String.mk x))
    rw [extract_youtu x hpath]
    rfl
  · show (extractVideoIdL ("https://youtube.com/embed/".data ++ x)).map
        (Option.map String.mk) = .ok (some (String.mk x))
    rw [extract_embed x hplain]
    rfl
  · show (extractVideoIdL ("https://youtube.com/v/".data ++ x)).map
        (Option.map String.mk) = .ok (some (String.mk x))
    rw [extract_vPath x hplain]
    rfl

theorem c1_witness :
    extract_video_id "https://www.youtube.com/watch?v=dQw4w9WgXcQ" =
      .ok (some "dQw4w9WgXcQ") ∧
    extract_video_id "https://youtu.be/dQw4w9WgXcQ" =
      .ok (some "dQw4w9WgXcQ") ∧
    extract_video_id "https://youtube.com/embed/dQw4w9WgXcQ" =
      .ok (some "dQw4w9WgXcQ") ∧
    extract_video_id "https://youtube.com/v/dQw4w9WgXcQ" =
      .ok (some "dQw4w9WgXcQ") :=
  c1_extract_shapes "dQw4w9WgXcQ".data (by decide) (by decide)

/-- C3 (counterexample): the claim as stated is false.  For host `youtu.be`
the code returns `parsed.path[1:]` — the whole remaining path — so extra
path segments are not ignored: `https://youtu.be/abc/extra` yields
`abc/extra`, not `abc`. -/
theorem c3_counterexample :
    extract_video_id "https://youtu.be/abc/extra" = .ok (some "abc/extra") ∧
    extract_video_id "https://youtu.be/abc/extra" ≠ .ok (some "abc") :=
  ⟨by decide, by decide⟩

/-- C3 (amended): for host `youtu.be` or `www.youtu.be`,
`extract_video_id` returns the entire path after the leading slash
(possibly containing further `/`); extra path segments are included, not
ignored. -/
theorem c3_youtu_full_path (x : List Char) (hne : x ≠ [])
    (hx : ∀ c ∈ x, pathChar c = true) :
    extract_video_id (String.mk ("https://youtu.be/".data ++ x)) =
      .ok (some (String.mk x)) ∧
    extract_video_id (String.mk ("https://www.youtu.be/".data ++ x)) =
      .ok (some (String.mk x)) := by
  constructor
  · show (extractVideoIdL ("https://youtu.be/".data ++ x)).map
        (Option.map String.mk) = .ok (some (String.mk x))
    rw [extract_youtu x hx]
    rfl
  · show (extractVideoIdL ("https://www.youtu.be/".data ++ x)).map
        (Option.map String.mk) = .ok (some (String.mk x))
    rw [extract_wwwYoutu x hx]
    rfl

theorem c3_witness :
    extract_video_id "https://youtu.be/abc/xyz" = .ok (some "abc/xyz") ∧
    extract_video_id "https://www.youtu.be/abc/xyz" = .ok (some "abc/xyz") :=
  c3_youtu_full_path "abc/xyz".data (by decide) (by decide)

/-- C6: for every URL whose parse succeeds and whose hostname is none of
`youtu.be` / `www.youtu.be` / `youtube.com` / `www.youtube.com` — or is
`youtube.com` / `www.youtube.com` with a path that is neither `/watch` nor
starts with `/embed/` or `/v/` — `extract_video_id` returns `None` and the
overall result is `{"error": "Invalid YouTube URL"}` with no service
call. -/
theorem c6_unrecognized_url (url : String) (p : ParseResult)
    (hp : urlparsePy url.data = .ok p)
    (h : (hostnamePy p.netloc ≠ some "youtu.be".data ∧
          hostnamePy p.netloc ≠ some "www.youtu.be".data ∧
          hostnamePy p.netloc ≠ some "youtube.com".data ∧
          hostnamePy p.netloc ≠ some "www.youtube.com".data) ∨
         ((hostnamePy p.netloc = some "youtube.com".data ∨
           hostnamePy p.netloc = some "www.youtube.com".data) ∧
          p.path ≠ "/watch".data ∧
          "/embed/".data.isPrefixOf p.path = false ∧
          "/v/".data.isPrefixOf p.path = false)) :
    extract_video_id url = .ok none ∧
    ∀ {α : Type} (service : String → Except String (List α)),
      get_transcript service url = (.invalidUrl, []) := by
  have hext : extractVideoIdL url.data = .ok none := by
    rw [extractVideoIdL_ok _ _ hp]
    unfold extractCore
    rcases h with ⟨h1, h2, h3, h4⟩ | ⟨hyc, hw, he, hv⟩
    · rw [if_neg (fun hc => hc.elim h1 h2), if_neg (fun hc => hc.elim h3 h4)]
    · have hnyb : ¬(hostnamePy p.netloc = some "youtu.be".data ∨
          hostnamePy p.netloc = some "www.youtu.be".data) := by
        rcases hyc with h | h <;> rw [h] <;> decide
      rw [if_neg hnyb, if_pos hyc, if_neg hw, if_neg (by simp [he]),
        if_neg (by simp [hv])]
  have hxnone : extract_video_id url = .ok none := by
    show (extractVideoIdL url.data).map (Option.map String.mk) = .ok none
    rw [hext]
    rfl
  refine ⟨hxnone, ?_⟩
  intro α service
  unfold get_transcript
  rw [hxnone]

theorem c6_witness :
    extract_video_id "https://vimeo.com/123" = .ok none ∧
    get_transcript okService "https://vimeo.com/123" = (.invalidUrl, []) :=
  have h := c6_unrecognized_url "https://vimeo.com/123"
    ⟨"https".data, "vimeo.com".data, "/123".data, [], [], []⟩ (by decide)
    (Or.inl (by decide))
  ⟨h.1, h.2 okService⟩

/-- C10: on host `youtube.com` / `www.youtube.com` with path `/watch`,
extraction returns the first value of parameter `v` kept by the query
parser (blank values dropped): in general exactly
`parse_qs(query)['v'][0]`, and concretely `?v=X&v=Y` yields `X` (the
first, not the last, occurrence), for any second value `Y`. -/
theorem c10_first_v_value (url : String) (p : ParseResult) (v : List Char)
    (x y : List Char)
    (hp : urlparsePy url.data = .ok p)
    (hhost : hostnamePy p.netloc = some "youtube.com".data ∨
             hostnamePy p.netloc = some "www.youtube.com".data)
    (hpath : p.path = "/watch".data)
    (hv : parseQsFirst p.query "v".data = some v)
    (hxne : x ≠ []) (hx : ∀ c ∈ x, queryPlainChar c = true)
    (hy : ∀ c ∈ y, queryPlainChar c = true) :
    extract_video_id url = .ok (some (String.mk v)) ∧
    extract_video_id (String.mk
        ("https://www.youtube.com/watch?v=".data ++ x ++ "&v=".data ++ y)) =
      .ok (some (String.mk x)) ∧
    extract_video_id (String.mk
        ("https://youtube.com/watch?v=".data ++ x ++ "&v=".data ++ y)) =
      .ok (some (String.mk x)) := by
  have hnyb : ¬(hostnamePy p.netloc = some "youtu.be".data ∨
      hostnamePy p.netloc = some "www.youtu.be".data) := by
    rcases hhost with h | h <;> rw [h] <;> decide
  have hcore : extractCore p.netloc p.path p.query = .ok (some v) := by
    unfold extractCore
    rw [if_neg hnyb, if_pos hhost, if_pos hpath, hv]
  have hgen : extract_video_id url = .ok (some (String.mk v)) := by
    show (extractVideoIdL url.data).map (Option.map String.mk) =
      .ok (some (String.mk v))
    rw [extractVideoIdL_ok _ _ hp, hcore]
    rfl
  have hqs := parseQsl_vx_more x ("v=".data ++ y) hxne (queryPlain_amp x hx)
    (queryPlain_pct x hx) (queryPlain_plus x hx)
  have hq1 : '#' ∉ "v=".data ++ x ++ '&' :: ("v=".data ++ y) := by
    intro hm
    rcases List.mem_append.mp hm with h | h
    · exact vq_no_hash x hx h
    · rcases List.mem_cons.mp h with h | h
      · exact absurd h (by decide)
      · exact vq_no_hash y hy h
  have hq2 : ("v=".data ++ x ++ '&' :: ("v=".data ++ y)).filter
      (fun c => !isUnsafeUrlChar c) = "v=".data ++ x ++ '&' :: ("v=".data ++ y) := by
    rw [List.filter_append, vq_filter_safe x hx, List.filter_cons]
    show ("v=".data ++ x) ++
        ('&' :: ("v=".data ++ y).filter fun c => !isUnsafeUrlChar c) = _
    rw [vq_filter_safe y hy]
  refine ⟨hgen, ?_, ?_⟩
  · have h2 := extract_watch "www.youtube.com".data
      ("v=".data ++ x ++ '&' :: ("v=".data ++ y)) x (parseQsl ("v=".data ++ y))
      (Or.inr rfl) hq1 hq2 hqs
    show (extractVideoIdL
        ("https://www.youtube.com/watch?v=".data ++ x ++ "&v=".data ++ y)).map
        (Option.map String.mk) = .ok (some (String.mk x))
    rw [show "https://www.youtube.com/watch?v=".data ++ x ++ "&v=".data ++ y =
        "https://".data ++ ("www.youtube.com".data ++ '/' ::
          ("watch?".data ++ ("v=".data ++ x ++ '&' :: ("v=".data ++ y))))
        from by rw [List.append_assoc, List.append_assoc]; rfl, h2]
    rfl
  · have h2 := extract_watch "youtube.com".data
      ("v=".data ++ x ++ '&' :: ("v=".data ++ y)) x (parseQsl ("v=".data ++ y))
      (Or.inl rfl) hq1 hq2 hqs
    show (extractVideoIdL
        ("https://youtube.com/watch?v=".data ++ x ++ "&v=".data ++ y)).map
        (Option.map String.mk) = .ok (some (String.mk x))
    rw [show "https://youtube.com/watch?v=".data ++ x ++ "&v=".data ++ y =
        "https://".data ++ ("youtube.com".data ++ '/' ::
          ("watch?".data ++ ("v=".data ++ x ++ '&' :: ("v=".data ++ y))))
        from by rw [List.append_assoc, List.append_assoc]; rfl, h2]
    rfl

theorem c10_witness :
    extract_video_id "https://www.youtube.com/watch?v=first&x=1" =
      .ok (some "first") ∧
    extract_video_id "https://www.youtube.com/watch?v=abc&v=def" =
      .ok (some "abc") ∧
    extract_video_id "https://youtube.com/watch?v=abc&v=def" =
      .ok (some "abc") :=
  have h := c10_first_v_value "https://www.youtube.com/watch?v=first&x=1"
    ⟨"https".data, "www.youtube.com".data, "/watch".data, [],
     "v=first&x=1".data, []⟩ "first".data "abc".data "def".data
    (by decide) (Or.inr (by decide)) (by decide) (by decide) (by decide)
    (by decide) (by decide)
  ⟨h.1, h.2.1, h.2.2⟩

end AviBackend
